import Mathlib

/-!
Verification of the PDF outline extractor (`adobe_hackathon_round1a/main.py`).

The development shallowly embeds the program:
* Python floats (font sizes) are modelled as exact rationals.
* Python strings are Lean strings; character-level operations
  (`str.split()`, `str.strip()`, `str.upper()`, `str.lower()`) are modelled
  over the underlying character list, with case mapping and the whitespace
  class restricted to ASCII (the only characters the claims exercise).
* The PDF parser (`fitz`) is a collaborator: a document is a list of lines,
  each line a list of spans, in document order with 1-based page numbers.
* The batch driver's file system and exception behaviour is modelled by
  giving each input file an `Except`-valued processing outcome and
  tracking the written artifacts and the two output streams explicitly.
-/

namespace Adobe

/-- Number of whitespace-delimited tokens, i.e. the length of Python
`text.split()`: the number of maximal runs of non-whitespace characters.
The boolean argument records whether we are inside a run. -/
def tokenCountAux (inTok : Bool) : List Char → Nat
  | [] => 0
  | c :: cs =>
    if c.isWhitespace then tokenCountAux false cs
    else (if inTok then 0 else 1) + tokenCountAux true cs

/-- Length of Python `text.split()` for a string. -/
def pyTokenCount (s : String) : Nat :=
  tokenCountAux false s.data

/-- Does the pattern list occur at the head of the text list
(character-wise equality)? -/
def leadMatch : List Char → List Char → Bool
  | [], _ => true
  | _ :: _, [] => false
  | a :: as, b :: bs => a == b && leadMatch as bs

/-- One alternative of the regular expression
`https?://\S+|www\.\S+` anchored at the start (Python `re.match`):
the text starts with the literal prefix and the next character exists
and is not whitespace (`\S+` needs at least one such character). -/
def urlBranch (t p : String) : Bool :=
  leadMatch p.data t.data &&
    (match t.data.drop p.data.length with
     | [] => false
     | c :: _ => !c.isWhitespace)

/-- The whole URL test of line 11 viewed as a boolean: the regular
expression is an alternation, and the optional s gives the two literal
http prefixes. -/
def isUrlMatch (t : String) : Bool :=
  urlBranch t "http://" || urlBranch t "https://" || urlBranch t "www."

/-- Python `text.strip()`: remove leading and trailing whitespace. -/
def pyStrip (s : String) : String :=
  ⟨((s.data.dropWhile Char.isWhitespace).reverse.dropWhile Char.isWhitespace).reverse⟩

/-- Last character of a string, if any (used for `str.endswith(':')`). -/
def lastChar (s : String) : Option Char :=
  s.data.getLast?

/-- The size-jump test of `is_heading_candidate` (line 28 of the source):
`prev_font_size and font_size > prev_font_size + 2`.  Python truthiness
makes a present-but-zero previous size fail the first conjunct. -/
def jumpBonusHit (prev : Option ℚ) (fs : ℚ) : Bool :=
  match prev with
  | none => false
  | some p => !(p == 0) && decide (p + 2 < fs)

/-- The weighted score of `is_heading_candidate` (lines 22-28):
2 for bold, 1 for text equal to its own uppercasing, 1 for a trailing
colon after stripping, 1 for at most 8 tokens, 1 for font size above 12,
2 for the size jump. -/
def scoreOf (text : String) (fs : ℚ) (bold : Bool) (prev : Option ℚ) : Nat :=
  (if bold then 2 else 0)
  + (if text.data.map Char.toUpper = text.data then 1 else 0)
  + (if lastChar (pyStrip text) = some ':' then 1 else 0)
  + (if pyTokenCount text ≤ 8 then 1 else 0)
  + (if (12 : ℚ) < fs then 1 else 0)
  + (if jumpBonusHit prev fs then 2 else 0)

/-- Function `is_heading_candidate` (lines 6-30 of the source): reject URLs, reject
short text unless bold and larger than 14, otherwise accept iff the score
reaches 3. -/
def is_heading_candidate (text : String) (fs : ℚ) (bold : Bool)
    (prev : Option ℚ) : Bool :=
  if isUrlMatch text then false
  else if pyTokenCount text < 2 && !(bold && decide ((14 : ℚ) < fs)) then false
  else decide (3 ≤ scoreOf text fs bold prev)

/-- The score exactly as claim C1 words it: the jump bonus is awarded
whenever the previous font size is defined (present) and exceeded by more
than 2, with no exception for a zero value. -/
def specScoreC1 (text : String) (fs : ℚ) (bold : Bool) (prev : Option ℚ) : Nat :=
  (if bold then 2 else 0)
  + (if text.data.map Char.toUpper = text.data then 1 else 0)
  + (if lastChar (pyStrip text) = some ':' then 1 else 0)
  + (if pyTokenCount text ≤ 8 then 1 else 0)
  + (if (12 : ℚ) < fs then 1 else 0)
  + (if (match prev with
         | none => false
         | some p => decide (p + 2 < fs)) then 2 else 0)

/-- The score as claim C1 must be amended: the jump bonus additionally
requires the previous font size to be nonzero. -/
def specScoreC1amended (text : String) (fs : ℚ) (bold : Bool)
    (prev : Option ℚ) : Nat :=
  (if bold then 2 else 0)
  + (if text.data.map Char.toUpper = text.data then 1 else 0)
  + (if lastChar (pyStrip text) = some ':' then 1 else 0)
  + (if pyTokenCount text ≤ 8 then 1 else 0)
  + (if (12 : ℚ) < fs then 1 else 0)
  + (if (match prev with
         | none => false
         | some p => !(p == 0) && decide (p + 2 < fs)) then 2 else 0)

theorem scoreOf_eq_specScoreC1amended (text : String) (fs : ℚ) (bold : Bool)
    (prev : Option ℚ) : scoreOf text fs bold prev = specScoreC1amended text fs bold prev := by
  cases prev <;> rfl

/-- Claim C1, counterexample: with previous font size defined but equal to 0,
font size 13 and three mixed-case tokens, the line passes both rejection
rules and the claim's score is 4 ≥ 3, yet the classifier rejects it (the
code's truthiness test drops the jump bonus). -/
theorem claim1_counterexample :
    isUrlMatch "alpha beta gamma" = false
    ∧ (pyTokenCount "alpha beta gamma" < 2
        && !(false && decide ((14 : ℚ) < 13))) = false
    ∧ 3 ≤ specScoreC1 "alpha beta gamma" 13 false (some 0)
    ∧ is_heading_candidate "alpha beta gamma" 13 false (some 0) = false := by
  refine ⟨by decide, by decide, by with_unfolding_all decide,
    by with_unfolding_all decide⟩

/-- Claim C1 (amended: the jump bonus requires the previous font size to be
defined and nonzero): a line passing both rejection rules is accepted iff
the amended weighted score is at least 3. -/
theorem claim1_score_threshold (text : String) (fs : ℚ) (bold : Bool)
    (prev : Option ℚ)
    (h1 : isUrlMatch text = false)
    (h2 : (pyTokenCount text < 2 && !(bold && decide ((14 : ℚ) < fs))) = false) :
    is_heading_candidate text fs bold prev = true
      ↔ 3 ≤ specScoreC1amended text fs bold prev := by
  rw [is_heading_candidate, h1, if_neg (by simp), h2]
  simp [scoreOf_eq_specScoreC1amended]

/-- Claim C1, witness: the claim's own example (bold, size 16, three
mixed-case tokens, no trailing colon, previous size 10) scores 6 and is
accepted. -/
theorem claim1_score_threshold_witness :
    is_heading_candidate "Alpha beta gamma" 16 true (some 10) = true
    ∧ specScoreC1amended "Alpha beta gamma" 16 true (some 10) = 6 :=
  ⟨(claim1_score_threshold "Alpha beta gamma" 16 true (some 10)
      (by decide) (by decide)).mpr (by with_unfolding_all decide),
   by with_unfolding_all decide⟩

/-- Claim C7, counterexample: the text "www. A B:" starts with "www." but
the regular expression requires a non-whitespace character right after the
prefix, so the line is not rejected; being bold, short, large and
colon-terminated it is accepted. -/
theorem claim7_counterexample :
    leadMatch "www.".data "www. A B:".data = true
    ∧ is_heading_candidate "www. A B:" 16 true none = true := by
  refine ⟨by decide, by decide⟩

/-- Claim C7 (amended: the URL prefix must be followed immediately by a
non-whitespace character): any line matching the URL pattern is rejected
regardless of boldness, font size, previous font size, or score. -/
theorem claim7_url_reject (text : String) (fs : ℚ) (bold : Bool)
    (prev : Option ℚ) (h : isUrlMatch text = true) :
    is_heading_candidate text fs bold prev = false := by
  rw [is_heading_candidate, h]
  simp

/-- Claim C7, witness: a genuine URL line is rejected even though bold,
large, and multi-token. -/
theorem claim7_url_reject_witness :
    is_heading_candidate "http://example.com more words" 20 true (some 5) = false :=
  claim7_url_reject "http://example.com more words" 20 true (some 5) (by decide)

/-- Claim C8: a line with fewer than 2 tokens that is not both bold and
larger than 14 is always rejected; a single-token line that is bold and
larger than 14 passes the short-text rule, and (when it is not a URL)
proceeds to the scoring decision. -/
theorem claim8_short_text_rule :
    (∀ (text : String) (fs : ℚ) (bold : Bool) (prev : Option ℚ),
      pyTokenCount text < 2 → ¬(bold = true ∧ (14 : ℚ) < fs) →
      is_heading_candidate text fs bold prev = false)
    ∧ (∀ (text : String) (fs : ℚ) (bold : Bool) (prev : Option ℚ),
      pyTokenCount text = 1 → bold = true → (14 : ℚ) < fs →
      isUrlMatch text = false →
      is_heading_candidate text fs bold prev
        = decide (3 ≤ scoreOf text fs bold prev)) := by
  constructor
  · intro text fs bold prev ht hbf
    have h2 : (bold && decide ((14 : ℚ) < fs)) = false := by
      cases bold with
      | false => rfl
      | true =>
        simp only [Bool.true_and, decide_eq_false_iff_not]
        exact fun hlt => hbf ⟨rfl, hlt⟩
    cases hu : isUrlMatch text with
    | true => simp [is_heading_candidate, hu]
    | false => simp [is_heading_candidate, hu, h2, ht]
  · intro text fs bold prev ht hb hfs hu
    subst hb
    simp [is_heading_candidate, hu, ht, hfs]

/-- Claim C8, witness: "Hi" (one token, not bold) is rejected; the bold
size-15 single token "INTRODUCTION" reaches scoring (and its score 4
accepts it). -/
theorem claim8_short_text_rule_witness :
    is_heading_candidate "Hi" 10 false none = false
    ∧ is_heading_candidate "INTRODUCTION" 15 true none
        = decide (3 ≤ scoreOf "INTRODUCTION" 15 true none) :=
  ⟨claim8_short_text_rule.1 "Hi" 10 false none (by decide) (by decide),
   claim8_short_text_rule.2 "INTRODUCTION" 15 true none (by decide) rfl
     (by decide) (by decide)⟩

/-- Claim C10: a present-but-zero previous font size is treated exactly as
an absent one: the jump bonus is never awarded, the score is unchanged and
the classification is unchanged. -/
theorem claim10_zero_prev_like_absent (text : String) (fs : ℚ) (bold : Bool) :
    jumpBonusHit (some 0) fs = false
    ∧ scoreOf text fs bold (some 0) = scoreOf text fs bold none
    ∧ is_heading_candidate text fs bold (some 0)
        = is_heading_candidate text fs bold none := by
  have hj : jumpBonusHit (some 0) fs = false := by
    simp [jumpBonusHit]
  have hs : scoreOf text fs bold (some 0) = scoreOf text fs bold none := by
    simp [scoreOf, hj, jumpBonusHit]
  exact ⟨hj, hs, by simp [is_heading_candidate, hs]⟩

/-- A styled text span as yielded by the PDF collaborator: text, font size
(in points, modelled exactly), and the optional weight attribute (the code
tests its presence and compares it to 600). -/
structure Span where
  text : String
  size : ℚ
  weight : Option ℚ
  deriving DecidableEq

/-- One visual text line of the document with its 1-based page number.
The page/block traversal of `detect_headings` (lines 37-45) yields the
document's lines in this order. -/
structure Line where
  spans : List Span
  page : Nat
  deriving DecidableEq

/-- A heading candidate record as appended at lines 58-63. -/
structure Candidate where
  text : String
  size : ℚ
  page : Nat
  bold : Bool
  deriving DecidableEq

/-- Concatenation of the span texts of a line followed by `strip()`
(lines 42-51). -/
def lineText (l : Line) : String :=
  pyStrip (l.spans.foldl (fun acc s => acc ++ s.text) "")

/-- Average font size of a line's spans (line 55). The source divides by
the span count; it only does so after the non-empty-text check, which
guarantees at least one span. -/
def lineAvgSize (l : Line) : ℚ :=
  (l.spans.map (fun s => s.size)).sum / (l.spans.length : ℚ)

/-- Boldness of a line: some span has a weight attribute of at least 600
(lines 48-49). -/
def lineBold (l : Line) : Bool :=
  l.spans.any (fun s =>
    match s.weight with
    | some w => decide ((600 : ℚ) ≤ w)
    | none => false)

/-- One invocation of `is_heading_candidate` made by the traversal loop:
the argument tuple together with the page the line sits on. -/
structure ClassifierCall where
  text : String
  size : ℚ
  bold : Bool
  page : Nat
  prev : Option ℚ
  deriving DecidableEq

/-- The candidate-collecting loop of `detect_headings` (lines 32-64):
lines whose stripped text is empty are skipped entirely (they do not
update `prev_font_size`); every other line is classified and then becomes
the new `prev_font_size` carrier. -/
def scanLines (prev : Option ℚ) : List Line → List Candidate
  | [] => []
  | l :: ls =>
    if (lineText l).data.isEmpty then scanLines prev ls
    else
      (if is_heading_candidate (lineText l) (lineAvgSize l) (lineBold l) prev
       then [⟨lineText l, lineAvgSize l, l.page, lineBold l⟩]
       else [])
      ++ scanLines (some (lineAvgSize l)) ls

/-- The sequence of classifier invocations the loop performs, with the
`prev_font_size` value passed at each one. -/
def classifierCalls (prev : Option ℚ) : List Line → List ClassifierCall
  | [] => []
  | l :: ls =>
    if (lineText l).data.isEmpty then classifierCalls prev ls
    else
      ⟨lineText l, lineAvgSize l, lineBold l, l.page, prev⟩
        :: classifierCalls (some (lineAvgSize l)) ls

/-- The candidate list is exactly the accepted subsequence of the
classifier invocations: the loop embedding and its instrumented view
agree. -/
theorem scanLines_eq_filterMap_calls (prev : Option ℚ) (ls : List Line) :
    scanLines prev ls
      = (classifierCalls prev ls).filterMap (fun c =>
          if is_heading_candidate c.text c.size c.bold c.prev
          then some ⟨c.text, c.size, c.page, c.bold⟩
          else none) := by
  induction ls generalizing prev with
  | nil => rfl
  | cons l ls ih =>
    rw [scanLines, classifierCalls]
    by_cases h : (lineText l).data.isEmpty
    · simp only [if_pos h]
      exact ih prev
    · simp only [if_neg h, List.filterMap_cons]
      by_cases hc : is_heading_candidate (lineText l) (lineAvgSize l) (lineBold l) prev
      · simp [hc, ih]
      · simp [hc, ih]

/-- The lines of a document whose stripped text is non-empty: the only
lines the loop classifies. -/
def nonblankLines (ls : List Line) : List Line :=
  ls.filter (fun l => !(lineText l).data.isEmpty)

/-- The classifier call produced for a non-blank line given the previous
size value threaded to it. -/
def callOf (l : Line) (p : Option ℚ) : ClassifierCall :=
  ⟨lineText l, lineAvgSize l, lineBold l, l.page, p⟩

theorem classifierCalls_eq_zipWith (prev : Option ℚ) (ls : List Line) :
    classifierCalls prev ls
      = List.zipWith callOf (nonblankLines ls)
          (prev :: (nonblankLines ls).map (fun l => some (lineAvgSize l))) := by
  induction ls generalizing prev with
  | nil => rfl
  | cons l ls ih =>
    rw [classifierCalls]
    by_cases h : (lineText l).data.isEmpty
    · have hnb : nonblankLines (l :: ls) = nonblankLines ls := by
        simp [nonblankLines, h]
      rw [if_pos h, hnb]
      exact ih prev
    · have hnb : nonblankLines (l :: ls) = l :: nonblankLines ls := by
        simp [nonblankLines, h]
      rw [if_neg h, hnb]
      simp only [List.map_cons, List.zipWith_cons_cons]
      rw [ih (some (lineAvgSize l))]
      rfl

/-- Claim C6 (amended: blank lines — lines whose stripped text is empty —
are never classified and do not update the carried font size): the loop
classifies exactly the non-blank lines in order, passing as
`prev_font_size` the average size of the immediately preceding non-blank
line, and no previous size at the first non-blank line. -/
theorem claim6_prev_threading (ls : List Line) :
    classifierCalls none ls
      = List.zipWith callOf (nonblankLines ls)
          (none :: (nonblankLines ls).map (fun l => some (lineAvgSize l))) :=
  classifierCalls_eq_zipWith none ls

/-- Claim C6, counterexample: a whitespace-only line of average size 20 is
skipped without updating `prev_font_size`, so the next line is classified
with no previous size instead of 20 as the claim states for the
immediately preceding line in document order. -/
theorem claim6_counterexample :
    lineAvgSize ⟨[⟨"   ", 20, none⟩], 1⟩ = 20
    ∧ (classifierCalls none
          [⟨[⟨"   ", 20, none⟩], 1⟩, ⟨[⟨"Hello world", 12, none⟩], 1⟩]).map
        (fun c => c.prev) = [none] := by
  constructor
  · with_unfolding_all decide
  · with_unfolding_all decide

/-- An outline entry as assembled at lines 99-103. -/
structure Entry where
  level : String
  text : String
  page : Nat
  deriving DecidableEq

/-- The dictionary returned by `detect_headings` (line 108). -/
structure Result where
  title : String
  outline : List Entry
  deriving DecidableEq

/-- Line 71, `sorted(list(set(sizes)), reverse=True)`: the distinct
candidate sizes in descending order. -/
def uniqueSizesDesc (cs : List Candidate) : List ℚ :=
  ((cs.map (fun c => c.size)).dedup).mergeSort (fun a b => decide (b ≤ a))

/-- The level labels assigned to the top sizes (line 76). -/
def levelNames : List String := ["H1", "H2", "H3"]

/-- First-match association lookup, the behaviour of a Python dict built
from distinct keys. -/
def lookupQ : List (ℚ × String) → ℚ → Option String
  | [], _ => none
  | (k, v) :: rest, s => if s = k then some v else lookupQ rest s

/-- The `size_to_level` dict of lines 74-76: the top 3 distinct sizes
paired with "H1", "H2", "H3" in order. -/
def levelTable (us : List ℚ) : List (ℚ × String) :=
  (us.take 3).zip levelNames

/-- Line 91, `size_to_level.get(size, None)`. -/
def sizeToLevel (us : List ℚ) (s : ℚ) : Option String :=
  lookupQ (levelTable us) s

/-- Title selection (lines 79-87): the text of the first candidate whose
size equals the largest distinct size, defaulting to the empty string. -/
def titleOf (cs : List Candidate) : String :=
  match uniqueSizesDesc cs with
  | [] => ""
  | largest :: _ =>
    match cs.filter (fun c => decide (c.size = largest)) with
    | [] => ""
    | c :: _ => c.text

/-- The body of the assembly loop (lines 90-103) for one candidate:
`None` when the candidate's size has no level or when it duplicates the
title at level H1, otherwise the emitted entry. -/
def emitEntry (title : String) (us : List ℚ) (c : Candidate) : Option Entry :=
  match sizeToLevel us c.size with
  | none => none
  | some level =>
    if c.text = title ∧ level = "H1" then none
    else some ⟨level, c.text, c.page⟩

/-- The assembled outline before sorting (the `outline` list right after
the loop of lines 90-103). -/
def outlineEntries (cs : List Candidate) : List Entry :=
  cs.filterMap (emitEntry (titleOf cs) (uniqueSizesDesc cs))

/-- Lexicographic comparison of character lists by code point: the order
Python uses on strings. For distinct lists it is the strict order, so it
is exactly the order of the sort key tuples. -/
def lexLE : List Char → List Char → Bool
  | [], _ => true
  | _ :: _, [] => false
  | a :: as, b :: bs => if a = b then lexLE as bs else decide (a.toNat < b.toNat)

/-- Python string comparison, code-point lexicographic. -/
def strLE (a b : String) : Bool :=
  lexLE a.data b.data

/-- Comparison on the sort key `(x["level"], x["page"])` of line 106:
lexicographic on the level string, then on the page number. -/
def entryLE (x y : Entry) : Bool :=
  if x.level = y.level then decide (x.page ≤ y.page) else strLE x.level y.level

/-- Function `detect_headings` after candidate collection (lines 66-108): empty
candidate list gives the empty result; otherwise the title and the
stably sorted assembled outline. -/
def buildResult (cs : List Candidate) : Result :=
  if cs.isEmpty then ⟨"", []⟩
  else ⟨titleOf cs, (outlineEntries cs).mergeSort entryLE⟩

/-- The whole of `detect_headings` on a parsed document. -/
def detect_headings (ls : List Line) : Result :=
  buildResult (scanLines none ls)

theorem lexLE_refl : ∀ as, lexLE as as = true
  | [] => rfl
  | a :: as => by rw [lexLE, if_pos rfl]; exact lexLE_refl as

theorem lexLE_total : ∀ as bs, lexLE as bs = true ∨ lexLE bs as = true
  | [], _ => Or.inl rfl
  | _ :: _, [] => Or.inr rfl
  | a :: as, b :: bs => by
    by_cases hab : a = b
    · subst hab
      rw [lexLE, if_pos rfl, lexLE, if_pos rfl]
      exact lexLE_total as bs
    · rw [lexLE, if_neg hab, lexLE, if_neg (fun h => hab h.symm)]
      have hne : a.toNat ≠ b.toNat := fun h => hab (by
        have := congrArg Char.ofNat h
        rwa [Char.ofNat_toNat, Char.ofNat_toNat] at this)
      rcases Nat.lt_or_ge a.toNat b.toNat with h | h
      · exact Or.inl (by simpa using h)
      · exact Or.inr (by simpa using Nat.lt_of_le_of_ne h (fun e => hne e.symm))

theorem lexLE_trans : ∀ as bs cs, lexLE as bs = true → lexLE bs cs = true →
    lexLE as cs = true
  | [], _, _, _, _ => rfl
  | _ :: _, [], _, h, _ => by cases h
  | _ :: _, _ :: _, [], _, h => by cases h
  | a :: as, b :: bs, c :: cs, h1, h2 => by
    by_cases hab : a = b <;> by_cases hbc : b = c
    · subst hab; subst hbc
      rw [lexLE, if_pos rfl] at h1 h2 ⊢
      exact lexLE_trans as bs cs h1 h2
    · subst hab
      rw [lexLE, if_neg hbc] at h2 ⊢
      exact h2
    · subst hbc
      rw [lexLE, if_neg hab] at h1 ⊢
      exact h1
    · rw [lexLE, if_neg hab] at h1
      rw [lexLE, if_neg hbc] at h2
      have h3 : a.toNat < c.toNat :=
        Nat.lt_trans (by simpa using h1) (by simpa using h2)
      have hac : a ≠ c := fun e => by
        rw [e] at h1
        exact absurd (Nat.lt_trans (by simpa using h1) (by simpa using h2))
          (by simp [Nat.lt_irrefl])
      rw [lexLE, if_neg hac]
      simpa using h3

theorem lexLE_antisymm : ∀ as bs, lexLE as bs = true → lexLE bs as = true →
    as = bs
  | [], [], _, _ => rfl
  | [], _ :: _, _, h => by cases h
  | _ :: _, [], h, _ => by cases h
  | a :: as, b :: bs, h1, h2 => by
    by_cases hab : a = b
    · subst hab
      rw [lexLE, if_pos rfl] at h1 h2
      rw [lexLE_antisymm as bs h1 h2]
    · rw [lexLE, if_neg hab] at h1
      rw [lexLE, if_neg (fun h => hab h.symm)] at h2
      exact absurd (Nat.lt_trans (by simpa using h1) (by simpa using h2))
        (Nat.lt_irrefl _)

theorem entryLE_total (x y : Entry) : entryLE x y = true ∨ entryLE y x = true := by
  by_cases h : x.level = y.level
  · rw [entryLE, if_pos h, entryLE, if_pos h.symm]
    rcases Nat.le_total x.page y.page with hp | hp
    · exact Or.inl (by simpa using hp)
    · exact Or.inr (by simpa using hp)
  · rw [entryLE, if_neg h, entryLE, if_neg (fun e => h e.symm)]
    exact lexLE_total x.level.data y.level.data

theorem strLE_antisymm {a b : String} (h1 : strLE a b = true)
    (h2 : strLE b a = true) : a = b := by
  rcases a with ⟨da⟩
  rcases b with ⟨db⟩
  have h := lexLE_antisymm da db h1 h2
  rw [h]

theorem entryLE_trans (x y z : Entry) (h1 : entryLE x y = true)
    (h2 : entryLE y z = true) : entryLE x z = true := by
  by_cases hxy : x.level = y.level <;> by_cases hyz : y.level = z.level
  · rw [entryLE, if_pos hxy] at h1
    rw [entryLE, if_pos hyz] at h2
    rw [entryLE, if_pos (hxy.trans hyz)]
    simp only [decide_eq_true_eq] at *
    exact Nat.le_trans h1 h2
  · rw [entryLE, if_neg hyz] at h2
    rw [entryLE, if_neg (fun e => hyz (hxy.symm.trans e)), hxy]
    exact h2
  · rw [entryLE, if_neg hxy] at h1
    rw [entryLE, if_neg (fun e => hxy (e.trans hyz.symm)), ← hyz]
    exact h1
  · rw [entryLE, if_neg hxy] at h1
    rw [entryLE, if_neg hyz] at h2
    have hxz : x.level ≠ z.level := by
      intro e
      rw [e] at h1
      exact hyz (strLE_antisymm h2 h1)
    rw [entryLE, if_neg hxz]
    exact lexLE_trans _ _ _ h1 h2

theorem uniqueSizesDesc_perm (cs : List Candidate) :
    (uniqueSizesDesc cs).Perm ((cs.map (fun c => c.size)).dedup) :=
  List.mergeSort_perm _ _

theorem mem_uniqueSizesDesc {cs : List Candidate} {s : ℚ} :
    s ∈ uniqueSizesDesc cs ↔ ∃ c ∈ cs, c.size = s := by
  rw [(uniqueSizesDesc_perm cs).mem_iff, List.mem_dedup, List.mem_map]

theorem uniqueSizesDesc_nodup (cs : List Candidate) :
    (uniqueSizesDesc cs).Nodup :=
  (uniqueSizesDesc_perm cs).nodup_iff.mpr (List.nodup_dedup _)

theorem uniqueSizesDesc_sorted (cs : List Candidate) :
    (uniqueSizesDesc cs).Pairwise (fun a b : ℚ => b ≤ a) := by
  have h : ((cs.map (fun c => c.size)).dedup.mergeSort
      (fun a b : ℚ => decide (b ≤ a))).Pairwise
        (fun a b : ℚ => decide (b ≤ a) = true) :=
    List.sorted_mergeSort
      (fun a b c h1 h2 => by
        simp only [decide_eq_true_eq] at *
        exact le_trans h2 h1)
      (fun a b => by
        rcases le_total a b with h | h <;> simp [h])
      ((cs.map (fun c => c.size)).dedup)
  exact h.imp (fun hab => by simpa using hab)

theorem uniqueSizesDesc_sorted_strict (cs : List Candidate) :
    (uniqueSizesDesc cs).Pairwise (fun a b : ℚ => b < a) := by
  have h := (uniqueSizesDesc_sorted cs).and (uniqueSizesDesc_nodup cs)
  exact h.imp (fun hab => lt_of_le_of_ne hab.1 (fun e => hab.2 e.symm))

theorem lookupQ_zip (vs : List String) :
    ∀ (ks : List ℚ), ks.Nodup → ∀ (s : ℚ) (v : String),
    (lookupQ (ks.zip vs) s = some v
      ↔ ∃ i : Nat, ks[i]? = some s ∧ vs[i]? = some v) := by
  induction vs with
  | nil =>
    intro ks _ s v
    simp [lookupQ]
  | cons v0 vs ih =>
    intro ks hnd s v
    cases ks with
    | nil => simp [lookupQ]
    | cons k ks =>
      rw [List.zip_cons_cons, lookupQ]
      by_cases hs : s = k
      · subst hs
        rw [if_pos rfl]
        constructor
        · intro h
          exact ⟨0, by simp, by simpa using h⟩
        · rintro ⟨i, h1, h2⟩
          cases i with
          | zero =>
            simp only [List.getElem?_cons_zero, Option.some.injEq] at h1 h2
            rw [h2]
          | succ n =>
            simp only [List.getElem?_cons_succ] at h1
            exact absurd (List.getElem?_mem h1) (List.nodup_cons.mp hnd).1
      · rw [if_neg hs]
        rw [ih ks (List.nodup_cons.mp hnd).2 s v]
        constructor
        · rintro ⟨i, h1, h2⟩
          exact ⟨i + 1, by simpa using h1, by simpa using h2⟩
        · rintro ⟨i, h1, h2⟩
          cases i with
          | zero =>
            simp only [List.getElem?_cons_zero, Option.some.injEq] at h1
            exact absurd h1.symm hs
          | succ n =>
            exact ⟨n, by simpa using h1, by simpa using h2⟩

theorem find?_eq_head_filter (p : Candidate → Bool) :
    ∀ l : List Candidate, l.find? p = (l.filter p).head?
  | [] => rfl
  | a :: l => by
    by_cases h : p a
    · simp [List.find?_cons, List.filter_cons, h]
    · simp only [List.find?_cons, List.filter_cons, h]
      simp only [Bool.false_eq_true, if_false]
      exact find?_eq_head_filter p l

theorem buildResult_title_of_ne {cs : List Candidate} (h : cs ≠ []) :
    (buildResult cs).title = titleOf cs := by
  cases cs with
  | nil => exact absurd rfl h
  | cons a l => rfl

theorem buildResult_outline_of_ne {cs : List Candidate} (h : cs ≠ []) :
    (buildResult cs).outline = (outlineEntries cs).mergeSort entryLE := by
  cases cs with
  | nil => exact absurd rfl h
  | cons a l => rfl

/-- Claim C2: for a non-empty candidate list, the distinct sizes are
sorted strictly descending and are exactly the candidate sizes; the
size-to-level map sends precisely the top 3 distinct sizes to "H1", "H2",
"H3" in order; every emitted outline entry is the image of one of the
candidates under that map; and a candidate whose size is outside the map
produces no outline entry. -/
theorem claim2_level_map (cs : List Candidate) (hne : cs ≠ []) :
    (uniqueSizesDesc cs).Pairwise (fun a b : ℚ => b < a)
    ∧ (∀ s : ℚ, s ∈ uniqueSizesDesc cs ↔ ∃ c ∈ cs, c.size = s)
    ∧ (∀ (s : ℚ) (lv : String),
        sizeToLevel (uniqueSizesDesc cs) s = some lv
          ↔ ∃ i : Nat, ((uniqueSizesDesc cs).take 3)[i]? = some s
              ∧ levelNames[i]? = some lv)
    ∧ (∀ e ∈ (buildResult cs).outline, ∃ c ∈ cs,
        sizeToLevel (uniqueSizesDesc cs) c.size = some e.level
          ∧ e.text = c.text ∧ e.page = c.page)
    ∧ (∀ c : Candidate, sizeToLevel (uniqueSizesDesc cs) c.size = none →
        emitEntry (titleOf cs) (uniqueSizesDesc cs) c = none) := by
  refine ⟨uniqueSizesDesc_sorted_strict cs, fun s => mem_uniqueSizesDesc, ?_, ?_, ?_⟩
  · intro s lv
    have hnd : ((uniqueSizesDesc cs).take 3).Nodup :=
      (uniqueSizesDesc_nodup cs).sublist (List.take_sublist 3 _)
    exact lookupQ_zip levelNames ((uniqueSizesDesc cs).take 3) hnd s lv
  · intro e he
    rw [buildResult_outline_of_ne hne, List.mem_mergeSort] at he
    obtain ⟨c, hc, hemit⟩ := List.mem_filterMap.mp he
    refine ⟨c, hc, ?_⟩
    rw [emitEntry] at hemit
    cases hsl : sizeToLevel (uniqueSizesDesc cs) c.size with
    | none => rw [hsl] at hemit; cases hemit
    | some lv =>
      rw [hsl] at hemit
      simp only [] at hemit
      by_cases hskip : c.text = titleOf cs ∧ lv = "H1"
      · rw [if_pos hskip] at hemit; cases hemit
      · rw [if_neg hskip] at hemit
        obtain rfl := Option.some.inj hemit
        exact ⟨rfl, rfl, rfl⟩
  · intro c h
    rw [emitEntry, h]

/-- Claim C2, witness: on the two-size candidate list the map is
{18 ↦ "H1", 14 ↦ "H2"} over the sizes [18, 14]. -/
theorem claim2_level_map_witness :
    (uniqueSizesDesc [⟨"Title", 18, 1, true⟩, ⟨"Section", 14, 1, true⟩]).Pairwise
        (fun a b : ℚ => b < a)
    ∧ (∀ s : ℚ,
        s ∈ uniqueSizesDesc [⟨"Title", 18, 1, true⟩, ⟨"Section", 14, 1, true⟩]
          ↔ ∃ c ∈ ([⟨"Title", 18, 1, true⟩, ⟨"Section", 14, 1, true⟩] : List Candidate),
              c.size = s)
    ∧ (∀ (s : ℚ) (lv : String),
        sizeToLevel (uniqueSizesDesc [⟨"Title", 18, 1, true⟩, ⟨"Section", 14, 1, true⟩]) s
            = some lv
          ↔ ∃ i : Nat,
              ((uniqueSizesDesc [⟨"Title", 18, 1, true⟩, ⟨"Section", 14, 1, true⟩]).take 3)[i]?
                  = some s
              ∧ levelNames[i]? = some lv)
    ∧ (∀ e ∈ (buildResult [⟨"Title", 18, 1, true⟩, ⟨"Section", 14, 1, true⟩]).outline,
        ∃ c ∈ ([⟨"Title", 18, 1, true⟩, ⟨"Section", 14, 1, true⟩] : List Candidate),
          sizeToLevel (uniqueSizesDesc [⟨"Title", 18, 1, true⟩, ⟨"Section", 14, 1, true⟩]) c.size
              = some e.level
          ∧ e.text = c.text ∧ e.page = c.page)
    ∧ (∀ c : Candidate,
        sizeToLevel (uniqueSizesDesc [⟨"Title", 18, 1, true⟩, ⟨"Section", 14, 1, true⟩]) c.size
            = none →
        emitEntry (titleOf [⟨"Title", 18, 1, true⟩, ⟨"Section", 14, 1, true⟩])
            (uniqueSizesDesc [⟨"Title", 18, 1, true⟩, ⟨"Section", 14, 1, true⟩]) c = none) :=
  claim2_level_map [⟨"Title", 18, 1, true⟩, ⟨"Section", 14, 1, true⟩] (by decide)

/-- Claim C3: the empty candidate list yields exactly the empty result,
and for a non-empty list the title is the text of the first candidate in
document order whose size is the maximum candidate size. -/
theorem claim3_title_selection :
    buildResult [] = ⟨"", []⟩
    ∧ ∀ cs : List Candidate, cs ≠ [] → ∃ (M : ℚ) (c : Candidate),
        (M ∈ cs.map (fun x => x.size) ∧ ∀ b ∈ cs.map (fun x => x.size), b ≤ M)
        ∧ cs.find? (fun x => decide (x.size = M)) = some c
        ∧ (buildResult cs).title = c.text := by
  refine ⟨rfl, ?_⟩
  intro cs hne
  have hus_ne : uniqueSizesDesc cs ≠ [] := by
    cases cs with
    | nil => exact absurd rfl hne
    | cons c0 cs' =>
      intro h
      have hmem : c0.size ∈ uniqueSizesDesc (c0 :: cs') :=
        mem_uniqueSizesDesc.mpr ⟨c0, List.mem_cons_self _ _, rfl⟩
      rw [h] at hmem
      exact absurd hmem (List.not_mem_nil _)
  obtain ⟨M, rest, hus⟩ : ∃ M rest, uniqueSizesDesc cs = M :: rest := by
    cases h : uniqueSizesDesc cs with
    | nil => exact absurd h hus_ne
    | cons M rest => exact ⟨M, rest, rfl⟩
  have hMmem : M ∈ cs.map (fun x => x.size) := by
    have hm : M ∈ uniqueSizesDesc cs := by
      rw [hus]; exact List.mem_cons_self _ _
    obtain ⟨c, hc, he⟩ := mem_uniqueSizesDesc.mp hm
    exact List.mem_map.mpr ⟨c, hc, he⟩
  have hMmax : ∀ b ∈ cs.map (fun x => x.size), b ≤ M := by
    intro b hb
    obtain ⟨c, hc, he⟩ := List.mem_map.mp hb
    have hbu : b ∈ uniqueSizesDesc cs := mem_uniqueSizesDesc.mpr ⟨c, hc, he⟩
    rw [hus] at hbu
    rcases List.mem_cons.mp hbu with h | h
    · exact le_of_eq h
    · have hp := uniqueSizesDesc_sorted cs
      rw [hus] at hp
      exact List.rel_of_pairwise_cons hp h
  obtain ⟨c, rest2, hf⟩ :
      ∃ c rest2, cs.filter (fun c => decide (c.size = M)) = c :: rest2 := by
    cases hf : cs.filter (fun c => decide (c.size = M)) with
    | cons c r => exact ⟨c, r, rfl⟩
    | nil =>
      exfalso
      obtain ⟨c, hc, he⟩ := List.mem_map.mp hMmem
      have hno := List.filter_eq_nil_iff.mp hf c hc
      simp [he] at hno
  refine ⟨M, c, ⟨hMmem, hMmax⟩, ?_, ?_⟩
  · rw [find?_eq_head_filter, hf]; rfl
  · rw [buildResult_title_of_ne hne]
    unfold titleOf
    simp only [hus, hf]

/-- Claim C3, witness: the largest size 20 occurs second; the title is
that candidate's text. -/
theorem claim3_title_selection_witness :
    ∃ (M : ℚ) (c : Candidate),
      (M ∈ ([⟨"small", 10, 1, false⟩, ⟨"BIG HEADING", 20, 2, true⟩] : List Candidate).map
            (fun x => x.size)
        ∧ ∀ b ∈ ([⟨"small", 10, 1, false⟩, ⟨"BIG HEADING", 20, 2, true⟩] : List Candidate).map
            (fun x => x.size), b ≤ M)
      ∧ ([⟨"small", 10, 1, false⟩, ⟨"BIG HEADING", 20, 2, true⟩] : List Candidate).find?
          (fun x => decide (x.size = M)) = some c
      ∧ (buildResult [⟨"small", 10, 1, false⟩, ⟨"BIG HEADING", 20, 2, true⟩]).title = c.text :=
  claim3_title_selection.2 [⟨"small", 10, 1, false⟩, ⟨"BIG HEADING", 20, 2, true⟩] (by decide)

/-- Claim C4: a candidate whose size has a level is skipped by the
assembly loop exactly when its level is "H1" and its text equals the
title; with any other level it is emitted even when its text equals the
title. -/
theorem claim4_title_dedup (cs : List Candidate) (c : Candidate) (lv : String)
    (h : sizeToLevel (uniqueSizesDesc cs) c.size = some lv) :
    (emitEntry (titleOf cs) (uniqueSizesDesc cs) c = none
        ↔ (lv = "H1" ∧ c.text = titleOf cs))
    ∧ (lv ≠ "H1" →
        emitEntry (titleOf cs) (uniqueSizesDesc cs) c
          = some ⟨lv, c.text, c.page⟩) := by
  have hemit : emitEntry (titleOf cs) (uniqueSizesDesc cs) c
      = if c.text = titleOf cs ∧ lv = "H1" then none
        else some ⟨lv, c.text, c.page⟩ := by
    rw [emitEntry, h]
  constructor
  · rw [hemit]
    by_cases hc : c.text = titleOf cs ∧ lv = "H1"
    · rw [if_pos hc]
      simp [hc.1, hc.2]
    · rw [if_neg hc]
      constructor
      · intro habs
        exact Option.noConfusion habs
      · rintro ⟨h1, h2⟩
        exact absurd ⟨h2, h1⟩ hc
  · intro hne
    rw [hemit, if_neg (fun hand => hne hand.2)]

/-- Claim C4, witness: in a document whose title "T" has size 18, the
size-14 candidate with the same text "T" gets level "H2" and is emitted,
not suppressed. -/
theorem claim4_title_dedup_witness :
    (emitEntry (titleOf [⟨"T", 18, 1, true⟩, ⟨"T", 14, 2, true⟩])
        (uniqueSizesDesc [⟨"T", 18, 1, true⟩, ⟨"T", 14, 2, true⟩]) ⟨"T", 14, 2, true⟩ = none
      ↔ ("H2" = "H1"
          ∧ "T" = titleOf [⟨"T", 18, 1, true⟩, ⟨"T", 14, 2, true⟩]))
    ∧ ("H2" ≠ "H1" →
        emitEntry (titleOf [⟨"T", 18, 1, true⟩, ⟨"T", 14, 2, true⟩])
            (uniqueSizesDesc [⟨"T", 18, 1, true⟩, ⟨"T", 14, 2, true⟩]) ⟨"T", 14, 2, true⟩
          = some ⟨"H2", "T", 2⟩) :=
  claim4_title_dedup [⟨"T", 18, 1, true⟩, ⟨"T", 14, 2, true⟩] ⟨"T", 14, 2, true⟩ "H2"
    (by norm_num [sizeToLevel, levelTable, levelNames, lookupQ, uniqueSizesDesc,
      List.mergeSort, List.splitInTwo, List.merge, List.dedup, List.pwFilter])

/-- Claim C5: the returned outline is the stable sort of the assembled
entries by the key (level string compared lexicographically by code
point, then page): it is a permutation of the assembled list, its level
strings are lexicographically nondecreasing with pages nondecreasing
within equal levels, and entries sharing both level and page keep their
assembly order. -/
theorem claim5_outline_sort (cs : List Candidate) (hne : cs ≠ []) :
    (buildResult cs).outline.Perm (outlineEntries cs)
    ∧ (buildResult cs).outline.Pairwise (fun x y =>
        strLE x.level y.level = true ∧ (x.level = y.level → x.page ≤ y.page))
    ∧ ∀ (lv : String) (pg : Nat),
        (buildResult cs).outline.filter
            (fun e => decide (e.level = lv) && decide (e.page = pg))
          = (outlineEntries cs).filter
            (fun e => decide (e.level = lv) && decide (e.page = pg)) := by
  rw [buildResult_outline_of_ne hne]
  have htrans : ∀ a b c : Entry, entryLE a b → entryLE b c → entryLE a c :=
    fun a b c h1 h2 => entryLE_trans a b c h1 h2
  have htotal : ∀ a b : Entry, entryLE a b || entryLE b a := by
    intro a b
    rcases entryLE_total a b with h | h <;> simp [h]
  refine ⟨List.mergeSort_perm _ _, ?_, ?_⟩
  · have hs := List.sorted_mergeSort htrans htotal (outlineEntries cs)
    refine hs.imp ?_
    intro x y hxy
    rw [entryLE] at hxy
    by_cases hl : x.level = y.level
    · rw [if_pos hl] at hxy
      refine ⟨?_, fun _ => by simpa using hxy⟩
      rw [strLE, hl]
      exact lexLE_refl _
    · rw [if_neg hl] at hxy
      exact ⟨hxy, fun e => absurd e hl⟩
  · intro lv pg
    set p : Entry → Bool := fun e => decide (e.level = lv) && decide (e.page = pg) with hp
    have hmemA : ∀ e ∈ (outlineEntries cs).filter p, p e = true :=
      fun e he => (List.mem_filter.mp he).2
    have hpw : ((outlineEntries cs).filter p).Pairwise
        (fun a b => entryLE a b = true) := by
      apply List.pairwise_of_forall_mem_list
      intro a ha b hb
      have hpa := hmemA a ha
      have hpb := hmemA b hb
      rw [hp] at hpa hpb
      simp only [Bool.and_eq_true, decide_eq_true_eq] at hpa hpb
      rw [entryLE, if_pos (hpa.1.trans hpb.1.symm)]
      simp [hpa.2, hpb.2]
    have hsub : List.Sublist ((outlineEntries cs).filter p)
        ((outlineEntries cs).mergeSort entryLE) :=
      List.sublist_mergeSort htrans htotal hpw (List.filter_sublist _)
    have hself : ((outlineEntries cs).filter p).filter p
        = (outlineEntries cs).filter p :=
      List.filter_eq_self.mpr hmemA
    have hsub2 : List.Sublist ((outlineEntries cs).filter p)
        (((outlineEntries cs).mergeSort entryLE).filter p) := by
      have h := hsub.filter p
      rwa [hself] at h
    have hlen : (((outlineEntries cs).mergeSort entryLE).filter p).length
        = ((outlineEntries cs).filter p).length :=
      ((List.mergeSort_perm (outlineEntries cs) entryLE).filter p).length_eq
    exact (hsub2.eq_of_length hlen.symm).symm

/-- Claim C5, witness: the singleton candidate document (whose sole H1
entry is suppressed as the title, leaving the empty outline). -/
theorem claim5_outline_sort_witness :
    (buildResult [⟨"T", 18, 1, true⟩]).outline.Perm (outlineEntries [⟨"T", 18, 1, true⟩])
    ∧ (buildResult [⟨"T", 18, 1, true⟩]).outline.Pairwise (fun x y =>
        strLE x.level y.level = true ∧ (x.level = y.level → x.page ≤ y.page))
    ∧ ∀ (lv : String) (pg : Nat),
        (buildResult [⟨"T", 18, 1, true⟩]).outline.filter
            (fun e => decide (e.level = lv) && decide (e.page = pg))
          = (outlineEntries [⟨"T", 18, 1, true⟩]).filter
            (fun e => decide (e.level = lv) && decide (e.page = pg)) :=
  claim5_outline_sort [⟨"T", 18, 1, true⟩] (by decide)

/-- The stem `os.path.splitext(filename)[0]` for a plain file name (no
directory separators): split at the last dot, except that a name whose
characters before the last dot are all dots has no extension. -/
def splitextStem (s : String) : String :=
  let cs := s.data
  let rtail := cs.reverse.takeWhile (fun c => !(c == '.'))
  if rtail.length = cs.length then s
  else
    let stem := cs.take (cs.length - rtail.length - 1)
    if stem.all (fun c => c == '.') then s else ⟨stem⟩

/-- Python `filename.lower()`, ASCII case mapping. -/
def pyLowerStr (s : String) : String :=
  ⟨s.data.map Char.toLower⟩

/-- Does the character list end with the given suffix? -/
def endsWithList (suf l : List Char) : Bool :=
  leadMatch suf.reverse l.reverse

/-- Line 112, `filename.lower().endswith(".pdf")`. -/
def isPdfName (s : String) : Bool :=
  endsWithList ".pdf".data (pyLowerStr s).data

/-- An input-directory entry for the batch driver: its name, and the
outcome of processing it — the parse-and-detect collaborator work inside
the `try` block either returns a result or raises with a message. -/
structure PdfFile where
  name : String
  outcome : Except String Result

/-- Observable state of the batch driver: output files written, lines
printed to standard output, and lines printed to standard error. -/
structure BatchState where
  written : List (String × Result)
  stdout : List String
  stderr : List String
  deriving DecidableEq

/-- One iteration of the `process_all_pdfs` loop (lines 111-121): names
not ending in ".pdf" (case-insensitive) are skipped; a successful file
writes `<stem>.json`; a raising file is caught and `print` (standard
output, no file argument) reports the name and message. -/
def batchStep (st : BatchState) (f : PdfFile) : BatchState :=
  if isPdfName f.name then
    match f.outcome with
    | Except.ok r =>
      ⟨st.written ++ [(splitextStem f.name ++ ".json", r)], st.stdout, st.stderr⟩
    | Except.error e =>
      ⟨st.written, st.stdout ++ ["Error processing " ++ f.name ++ ": " ++ e],
        st.stderr⟩
  else st

/-- Function `process_all_pdfs` (lines 110-121) over the directory listing. -/
def process_all_pdfs (files : List PdfFile) : BatchState :=
  files.foldl batchStep ⟨[], [], []⟩

/-- The message a failing file contributes to standard output. -/
def errMsgOf (f : PdfFile) : Option String :=
  match f.outcome with
  | Except.error e => some ("Error processing " ++ f.name ++ ": " ++ e)
  | Except.ok _ => none

/-- The artifact a successful file contributes. -/
def artifactOf (f : PdfFile) : Option (String × Result) :=
  match f.outcome with
  | Except.ok r => some (splitextStem f.name ++ ".json", r)
  | Except.error _ => none

theorem foldl_batchStep (files : List PdfFile) : ∀ st : BatchState,
    files.foldl batchStep st
      = ⟨st.written ++ (files.filter (fun f => isPdfName f.name)).filterMap artifactOf,
         st.stdout ++ (files.filter (fun f => isPdfName f.name)).filterMap errMsgOf,
         st.stderr⟩ := by
  induction files with
  | nil =>
    intro st
    cases st
    simp
  | cons f fs ih =>
    intro st
    rw [List.foldl_cons, ih (batchStep st f), List.filter_cons]
    by_cases hf : isPdfName f.name
    · cases ho : f.outcome with
      | ok r =>
        simp [batchStep, hf, ho, artifactOf, errMsgOf, List.filterMap_cons]
      | error e =>
        simp [batchStep, hf, ho, artifactOf, errMsgOf, List.filterMap_cons]
    · simp [batchStep, hf]

/-- Claim C9, counterexample: in a batch where "a.pdf" raises "boom" and
"b.pdf" succeeds, nothing at all is written to standard error — the
failure report ("Error processing a.pdf: boom") goes to standard output,
while the rest of the claim (no artifact for the failing file, the batch
continues with "b.pdf") does hold. -/
theorem claim9_counterexample :
    (process_all_pdfs [⟨"a.pdf", Except.error "boom"⟩,
        ⟨"b.pdf", Except.ok ⟨"T", []⟩⟩]).stderr = []
    ∧ (process_all_pdfs [⟨"a.pdf", Except.error "boom"⟩,
        ⟨"b.pdf", Except.ok ⟨"T", []⟩⟩]).stdout
        = ["Error processing a.pdf: boom"]
    ∧ (process_all_pdfs [⟨"a.pdf", Except.error "boom"⟩,
        ⟨"b.pdf", Except.ok ⟨"T", []⟩⟩]).written
        = [("b.json", ⟨"T", []⟩)] := by
  refine ⟨by decide, by decide, by decide⟩

/-- Claim C9 (amended: the failure message is written to standard output,
not standard error): every failing ".pdf" file is caught and contributes
exactly its "Error processing name: message" line to standard output and
no artifact, every successful one contributes its artifact, order is
preserved, processing continues past failures, and standard error stays
empty. -/
theorem claim9_batch_isolation (files : List PdfFile) :
    (process_all_pdfs files).stderr = []
    ∧ (process_all_pdfs files).stdout
        = (files.filter (fun f => isPdfName f.name)).filterMap errMsgOf
    ∧ (process_all_pdfs files).written
        = (files.filter (fun f => isPdfName f.name)).filterMap artifactOf := by
  rw [process_all_pdfs, foldl_batchStep]
  exact ⟨rfl, rfl, rfl⟩

end Adobe
